import Mathlib

/-!
Verification of the native control shell in `src/src-tauri/src/lib.rs`:
the window-visibility state machine (tray menu, global-shortcut handler,
close interception), the shortcut debouncer, and the JSON config store.

The Rust code is shallowly embedded: each event handler becomes a pure
function from the relevant state (window, debounce timestamp, on-disk file)
to the new state together with the list of events emitted to the frontend,
in the order the code emits them.  Times are naturals measured in
milliseconds, matching `Duration::from_millis`; `Instant::now()` readings
are nonnegative and `duration_since` saturates at zero, which Nat
subtraction models exactly.
-/

/-! ### Shortcut debouncer (lib.rs lines 14, 61, 106-115) -/

/-- The constant `SHORTCUT_DEBOUNCE_MS: u64 = 300` (lib.rs line 14). -/
def SHORTCUT_DEBOUNCE_MS : Nat := 300

/-- The debounce check at the top of the global-shortcut handler
(lib.rs lines 108-115): if `now.duration_since(*last_time) <
Duration::from_millis(SHORTCUT_DEBOUNCE_MS)` the activation is rejected and
the stored timestamp is left unchanged; otherwise `*last_time = now` and the
handler proceeds.  Returns (accepted, new stored timestamp). -/
def debounceAccept (last now : Nat) : Bool × Nat :=
  if now - last < SHORTCUT_DEBOUNCE_MS then (false, last)
  else (true, now)

/-- Folding a sequence of clock readings through the debouncer, returning
every intermediate stored timestamp (initial one included). -/
def debounceStates (last : Nat) (nows : List Nat) : List Nat :=
  List.scanl (fun l n => (debounceAccept l n).2) last nows

/-! ### Window, tray, shortcut and close handlers (lib.rs lines 51-56, 78-98, 117-128, 142-155) -/

/-- The main webview window as the handlers observe it: `is_visible` and
whether it holds input focus. -/
structure Window where
  visible : Bool
  focused : Bool
deriving DecidableEq

/-- Model of `window.show()` (makes the window visible). -/
def Window.show (w : Window) : Window := { w with visible := true }

/-- Model of `window.set_focus()`. -/
def Window.setFocus (w : Window) : Window := { w with focused := true }

/-- Model of `window.hide()`. -/
def Window.hide (w : Window) : Window := { w with visible := false }

/-- The tray-menu handler (lib.rs lines 78-89).  Input: the clicked menu
item id and the `"main"` webview window if it exists.  Output: the window
afterwards, the list of event names emitted to the frontend, and
`some code` when `app.exit(code)` is called. -/
def onMenuEvent (menuId : String) (mainWindow : Option Window) :
    Option Window × List String × Option Nat :=
  if menuId = "show" then
    match mainWindow with
    | some w => (some (w.show.setFocus), [], none)
    | none => (none, [], none)
  else if menuId = "quit" then
    (mainWindow, [], some 0)
  else
    (mainWindow, [], none)

/-- The body of the global-shortcut handler after the debounce check passed
(lib.rs lines 117-128): if the window is visible, emit `"shortcut-action"`;
otherwise show it, focus it and emit `"window-shown"`. -/
def onShortcutToggle (mainWindow : Option Window) : Option Window × List String :=
  match mainWindow with
  | some w =>
    if w.visible then (some w, ["shortcut-action"])
    else (some (w.show.setFocus), ["window-shown"])
  | none => (none, [])

/-- The whole global-shortcut handler (lib.rs lines 106-129): debounce
check, then toggle.  Returns (new stored timestamp, window, events). -/
def onShortcut (last now : Nat) (mainWindow : Option Window) :
    Nat × Option Window × List String :=
  if now - last < SHORTCUT_DEBOUNCE_MS then (last, mainWindow, [])
  else
    let r := onShortcutToggle mainWindow
    (now, r.1, r.2)

/-- The `RunEvent` handler for `WindowEvent::CloseRequested` (lib.rs lines
142-155).  Input: the label of the window whose close was requested and the
`"main"` window if it exists.  Output: whether `api.prevent_close()` was
called (the close is cancelled, the window is not destroyed), the `"main"`
window afterwards, and the emitted events. -/
def onCloseRequested (label : String) (mainWindow : Option Window) :
    Bool × Option Window × List String :=
  if label = "main" then
    match mainWindow with
    | some w => (true, some w.hide, ["window-hidden"])
    | none => (true, none, [])
  else
    (false, mainWindow, [])

/-- The `hide_to_tray` command (lib.rs lines 51-56).  `emitErr` (resp.
`hideErr`) is `some e` when `window.emit("window-hidden", ())` (resp.
`window.hide()`) fails with error `e`.  The code emits first and early
returns on failure via `?`, so a failed emit leaves the window untouched.
Returns (command result, window afterwards, events delivered). -/
def hide_to_tray (w : Window) (emitErr hideErr : Option String) :
    Except String Unit × Window × List String :=
  match emitErr with
  | some e => (Except.error e, w, [])
  | none =>
    match hideErr with
    | some e => (Except.error e, w, ["window-hidden"])
    | none => (Except.ok (), w.hide, ["window-hidden"])

/-! ### JSON documents (`serde_json::Value`)

`get_config`/`save_config` pass the configuration through
`serde_json::from_str` and `serde_json::to_string_pretty`.  We model JSON
values with integer numbers (floating-point numbers are out of scope of
this embedding; none of the verified documents contains one) and objects as
the ordered field list the serializer walks. -/

inductive Json where
  | null
  | bool (b : Bool)
  | num (n : Int)
  | str (s : String)
  | arr (elems : List Json)
  | obj (fields : List (String × Json))

/-- ASCII hex digit used by serde's `\u00xx` escapes (lowercase, as in
serde_json's `HEX_DIGITS`); `Nat.digitChar` maps 0-15 to `0`-`9a-f`. -/
def hexChar (n : Nat) : Char := Nat.digitChar n

/-- serde_json's string escaping: `"`, `\`, the short control escapes
`\n \t \r \b \f`, `\u00xx` for the remaining control characters, and every
other character verbatim. -/
def escapeChar (c : Char) : List Char :=
  if c.toNat = 34 then ['\\', '"']
  else if c.toNat = 92 then ['\\', '\\']
  else if c.toNat = 10 then ['\\', 'n']
  else if c.toNat = 9 then ['\\', 't']
  else if c.toNat = 13 then ['\\', 'r']
  else if c.toNat = 8 then ['\\', 'b']
  else if c.toNat = 12 then ['\\', 'f']
  else if c.toNat < 32 then
    ['\\', 'u', '0', '0', hexChar (c.toNat / 16), hexChar (c.toNat % 16)]
  else [c]

/-- Escape a whole string body. -/
def escList (l : List Char) : List Char := (l.map escapeChar).flatten

/-- Decimal printing of a natural number (itoa). -/
def printNat (m : Nat) : List Char :=
  if m = 0 then ['0'] else (Nat.digits 10 m).reverse.map Nat.digitChar

/-- Decimal printing of an integer. -/
def printInt (n : Int) : List Char :=
  if n < 0 then '-' :: printNat n.natAbs else printNat n.toNat

/-- Indentation of `serde_json::ser::PrettyFormatter`: two spaces per level. -/
def nIndent (d : Nat) : List Char := List.replicate (2 * d) ' '

mutual
/-- Model of `serde_json::to_string_pretty` on a value, at indentation depth `d`. -/
def printJson (d : Nat) : Json → List Char
  | .null => "null".data
  | .bool true => "true".data
  | .bool false => "false".data
  | .num n => printInt n
  | .str s => '"' :: (escList s.data ++ ['"'])
  | .arr [] => "[]".data
  | .arr (x :: xs) =>
    '[' :: '\n' :: (nIndent (d + 1) ++ (printJson (d + 1) x ++
      (printArrTail (d + 1) xs ++ ('\n' :: (nIndent d ++ [']'])))))
  | .obj [] => "\x7b\x7d".data
  | .obj (p :: ps) =>
    '\x7b' :: '\n' :: (nIndent (d + 1) ++ (printMember (d + 1) p ++
      (printObjTail (d + 1) ps ++ ('\n' :: (nIndent d ++ ['\x7d'])))))
termination_by j => sizeOf j
decreasing_by
all_goals simp_wf
all_goals omega

/-- Remaining array elements, each preceded by `,\n` and the indent. -/
def printArrTail (d : Nat) : List Json → List Char
  | [] => []
  | y :: ys => ',' :: '\n' :: (nIndent d ++ (printJson d y ++ printArrTail d ys))
termination_by l => sizeOf l
decreasing_by
all_goals simp_wf
all_goals omega

/-- One `"key": value` object member. -/
def printMember (d : Nat) : String × Json → List Char
  | (k, v) => '"' :: (escList k.data ++ ('"' :: ':' :: ' ' :: printJson d v))
termination_by p => sizeOf p
decreasing_by
all_goals simp_wf

/-- Remaining object members, each preceded by `,\n` and the indent. -/
def printObjTail (d : Nat) : List (String × Json) → List Char
  | [] => []
  | q :: qs => ',' :: '\n' :: (nIndent d ++ (printMember d q ++ printObjTail d qs))
termination_by l => sizeOf l
decreasing_by
all_goals simp_wf
all_goals omega
end

/-- JSON whitespace skipped by the parser: space, `\n`, `\t`, `\r`. -/
def isWsChar (c : Char) : Bool :=
  decide (c.toNat = 32) || decide (c.toNat = 10) ||
  decide (c.toNat = 9) || decide (c.toNat = 13)

/-- Drop leading JSON whitespace. -/
def skipWs : List Char → List Char
  | [] => []
  | c :: cs => if isWsChar c then skipWs cs else c :: cs

/-- ASCII decimal digit test. -/
def isDigitChar (c : Char) : Bool :=
  decide (48 ≤ c.toNat) && decide (c.toNat ≤ 57)

/-- True when the input does not begin with a decimal digit (so a number
just parsed cannot be extended by it). -/
def noDigitHead : List Char → Bool
  | [] => true
  | c :: _ => !(isDigitChar c)

/-- Value of one hex digit (`0-9`, `a-f`, `A-F`). -/
def hexVal (c : Char) : Option Nat :=
  if 48 ≤ c.toNat ∧ c.toNat ≤ 57 then some (c.toNat - 48)
  else if 97 ≤ c.toNat ∧ c.toNat ≤ 102 then some (c.toNat - 87)
  else if 65 ≤ c.toNat ∧ c.toNat ≤ 70 then some (c.toNat - 55)
  else none

/-- Parse the body of a JSON string after the opening quote, returning the
decoded characters and the input after the closing quote.  Unpaired raw
control characters and malformed escapes are rejected, as in serde_json;
surrogate `\u` escapes are not modelled. -/
def parseStringBody : List Char → Option (List Char × List Char)
  | [] => none
  | c :: cs =>
    if c.toNat = 34 then some ([], cs)
    else if c.toNat = 92 then
      match cs with
      | [] => none
      | e :: cs' =>
        if e.toNat = 34 then (parseStringBody cs').map (fun r => ('"' :: r.1, r.2))
        else if e.toNat = 92 then (parseStringBody cs').map (fun r => ('\\' :: r.1, r.2))
        else if e.toNat = 47 then (parseStringBody cs').map (fun r => ('/' :: r.1, r.2))
        else if e.toNat = 110 then (parseStringBody cs').map (fun r => ('\n' :: r.1, r.2))
        else if e.toNat = 116 then (parseStringBody cs').map (fun r => ('\t' :: r.1, r.2))
        else if e.toNat = 114 then (parseStringBody cs').map (fun r => ('\r' :: r.1, r.2))
        else if e.toNat = 98 then (parseStringBody cs').map (fun r => ('\x08' :: r.1, r.2))
        else if e.toNat = 102 then (parseStringBody cs').map (fun r => ('\x0c' :: r.1, r.2))
        else if e.toNat = 117 then
          match cs' with
          | h1 :: h2 :: h3 :: h4 :: cs2 =>
            match hexVal h1, hexVal h2, hexVal h3, hexVal h4 with
            | some a, some b, some a2, some b2 =>
              if 55296 ≤ ((a * 16 + b) * 16 + a2) * 16 + b2 ∧
                  ((a * 16 + b) * 16 + a2) * 16 + b2 < 57344 then none
              else (parseStringBody cs2).map
                (fun r => (Char.ofNat (((a * 16 + b) * 16 + a2) * 16 + b2) :: r.1, r.2))
            | _, _, _, _ => none
          | _ => none
        else none
    else if c.toNat < 32 then none
    else (parseStringBody cs).map (fun r => (c :: r.1, r.2))
termination_by l => l.length
decreasing_by
all_goals simp_wf
all_goals omega

/-- Consume a maximal run of decimal digits, accumulating their value. -/
def parseDigitsAux : List Char → Nat → Nat × List Char
  | [], acc => (acc, [])
  | c :: cs, acc =>
    if isDigitChar c then parseDigitsAux cs (acc * 10 + (c.toNat - 48))
    else (acc, c :: cs)

mutual
/-- Recursive-descent JSON value parser (model of `serde_json::from_str`),
fuelled by `fuel`; numbers are restricted to integers.  Returns the value
and the unconsumed input. -/
def parseVal : Nat → List Char → Option (Json × List Char)
  | 0, _ => none
  | fuel + 1, cs =>
    match skipWs cs with
    | [] => none
    | c :: rest =>
      if c.toNat = 110 then
        match rest with
        | 'u' :: 'l' :: 'l' :: r => some (.null, r)
        | _ => none
      else if c.toNat = 116 then
        match rest with
        | 'r' :: 'u' :: 'e' :: r => some (.bool true, r)
        | _ => none
      else if c.toNat = 102 then
        match rest with
        | 'a' :: 'l' :: 's' :: 'e' :: r => some (.bool false, r)
        | _ => none
      else if c.toNat = 34 then
        match parseStringBody rest with
        | some (l, r) => some (.str (String.mk l), r)
        | none => none
      else if c.toNat = 45 then
        match rest with
        | d0 :: _ =>
          if isDigitChar d0 then
            match parseDigitsAux rest 0 with
            | (v, r) => some (.num (-(v : Int)), r)
          else none
        | [] => none
      else if isDigitChar c then
        match parseDigitsAux (c :: rest) 0 with
        | (v, r) => some (.num (v : Int), r)
      else if c.toNat = 91 then
        match skipWs rest with
        | [] => none
        | c2 :: r2 =>
          if c2.toNat = 93 then some (.arr [], r2)
          else
            match parseVal fuel (c2 :: r2) with
            | some (v, r3) =>
              match parseArrTail fuel r3 with
              | some (vs, r4) => some (.arr (v :: vs), r4)
              | none => none
            | none => none
      else if c.toNat = 123 then
        match skipWs rest with
        | [] => none
        | c2 :: r2 =>
          if c2.toNat = 125 then some (.obj [], r2)
          else
            match parseMember fuel (c2 :: r2) with
            | some (p, r3) =>
              match parseObjTail fuel r3 with
              | some (ps, r4) => some (.obj (p :: ps), r4)
              | none => none
            | none => none
      else none

/-- After one array element: `,` and another element, or `]`. -/
def parseArrTail : Nat → List Char → Option (List Json × List Char)
  | 0, _ => none
  | fuel + 1, cs =>
    match skipWs cs with
    | [] => none
    | c :: rest =>
      if c.toNat = 93 then some ([], rest)
      else if c.toNat = 44 then
        match parseVal fuel rest with
        | some (v, r2) =>
          match parseArrTail fuel r2 with
          | some (vs, r3) => some (v :: vs, r3)
          | none => none
        | none => none
      else none

/-- One `"key": value` object member. -/
def parseMember : Nat → List Char → Option ((String × Json) × List Char)
  | 0, _ => none
  | fuel + 1, cs =>
    match skipWs cs with
    | [] => none
    | c :: rest =>
      if c.toNat = 34 then
        match parseStringBody rest with
        | some (l, r1) =>
          match skipWs r1 with
          | ':' :: r2 =>
            match parseVal fuel r2 with
            | some (v, r3) => some ((String.mk l, v), r3)
            | none => none
          | _ => none
        | none => none
      else none

/-- After one object member: `,` and another member, or the closing brace. -/
def parseObjTail : Nat → List Char → Option (List (String × Json) × List Char)
  | 0, _ => none
  | fuel + 1, cs =>
    match skipWs cs with
    | [] => none
    | c :: rest =>
      if c.toNat = 125 then some ([], rest)
      else if c.toNat = 44 then
        match parseMember fuel rest with
        | some (p, r2) =>
          match parseObjTail fuel r2 with
          | some (ps, r3) => some (p :: ps, r3)
          | none => none
        | none => none
      else none
end

/-- Model of `serde_json::from_str` on a whole document: one value, then nothing but
trailing whitespace.  The fuel `s.length + 1` dominates every recursion the
input can drive. -/
def parseJsonTop (s : String) : Option Json :=
  match parseVal (s.length + 1) s.data with
  | some (j, rest) => if skipWs rest = [] then some j else none
  | none => none

/-- Model of `serde_json::to_string_pretty` on a whole document. -/
def to_string_pretty (j : Json) : String := String.mk (printJson 0 j)

/-! ### Config store (lib.rs lines 16-49) -/

/-- The on-disk state the config commands touch: the content of
`<config-dir>/ama-agent/config.json`, or `none` when the file is absent.
(`dirs::config_dir()` is taken to resolve, as on every supported desktop;
its `None` case only produces the fixed error string.) -/
structure FS where
  file : Option String

/-- The default document synthesized by `get_config` when the file is
absent (lib.rs lines 27-32). -/
def defaultConfig : Json :=
  .obj [("whisperUrl", .str "https://api.openai.com/v1/audio/transcriptions"),
        ("whisperApiKey", .str ""),
        ("llmProvider", .str "openai"),
        ("llmApiKey", .str "")]

/-- Error result of `serde_json::from_str(&content).map_err(|e| e.to_string())`. -/
def parseErrorMsg : String := "invalid JSON"

/-- Model of `get_config` (lib.rs lines 16-34): if the file exists, read and parse
it (a parse failure becomes an error string); otherwise return the default
document.  The second component is the file system afterwards: the command
contains no write, so it is returned untouched. -/
def get_config (fs : FS) : Except String Json × FS :=
  match fs.file with
  | some content =>
    (match parseJsonTop content with
     | some j => Except.ok j
     | none => Except.error parseErrorMsg, fs)
  | none => (Except.ok defaultConfig, fs)

/-- Model of `save_config` (lib.rs lines 36-49): create the config directory if
needed and overwrite the file with the pretty-printed document. -/
def save_config (config : Json) (_fs : FS) : Except String Unit × FS :=
  (Except.ok (), ⟨some (to_string_pretty config)⟩)

/-! ### Fuel bounds for the parser -/

/-- Fuel needed by one parser step on an atom. -/
def leafCost : Nat := 1

mutual
/-- Fuel sufficient for `parseVal` to parse the printing of `j`. -/
def costVal : Json → Nat
  | .null => leafCost
  | .bool _ => leafCost
  | .num _ => leafCost
  | .str _ => leafCost
  | .arr [] => leafCost
  | .arr (x :: xs) => costVal x + costArrTail xs + 1
  | .obj [] => leafCost
  | .obj (p :: ps) => costMember p + costObjTail ps + 1
termination_by j => sizeOf j
decreasing_by
all_goals simp_wf
all_goals omega

/-- Fuel sufficient for `parseArrTail` on the printed tail. -/
def costArrTail : List Json → Nat
  | [] => 1
  | y :: ys => costVal y + costArrTail ys + 1
termination_by l => sizeOf l
decreasing_by
all_goals simp_wf
all_goals omega

/-- Fuel sufficient for `parseMember` on the printed member. -/
def costMember : String × Json → Nat
  | (_, v) => costVal v + 1
termination_by p => sizeOf p
decreasing_by
all_goals simp_wf

/-- Fuel sufficient for `parseObjTail` on the printed tail. -/
def costObjTail : List (String × Json) → Nat
  | [] => 1
  | q :: qs => costMember q + costObjTail qs + 1
termination_by l => sizeOf l
decreasing_by
all_goals simp_wf
all_goals omega
end

/-! ### Helper lemmas -/

/-- A chain of `≤` can be restarted from a smaller head. -/
theorem chain_le_of_le {m n : Nat} {l : List Nat} (h : m ≤ n)
    (hc : List.Chain (· ≤ ·) n l) : List.Chain (· ≤ ·) m l := by
  cases l with
  | nil => exact List.Chain.nil
  | cons a t =>
    rw [List.chain_cons] at hc ⊢
    exact ⟨le_trans h hc.1, hc.2⟩

/-- The debouncer never moves the stored timestamp backwards over a run of
non-decreasing clock readings. -/
theorem debounceStates_chain (nows : List Nat) :
    ∀ last : Nat, List.Chain (· ≤ ·) last nows →
      List.Chain' (· ≤ ·) (debounceStates last nows) := by
  induction nows with
  | nil => intro last _; simp [debounceStates]
  | cons n ns ih =>
    intro last hc
    rw [List.chain_cons] at hc
    have hln : last ≤ n := hc.1
    have hstep : (debounceAccept last n).2 = last ∨ (debounceAccept last n).2 = n := by
      unfold debounceAccept
      split <;> simp
    have hle : last ≤ (debounceAccept last n).2 := by
      rcases hstep with h | h <;> omega
    have hchain2 : List.Chain (· ≤ ·) (debounceAccept last n).2 ns := by
      rcases hstep with h | h
      · rw [h]; exact chain_le_of_le hln hc.2
      · rw [h]; exact hc.2
    have htail := ih (debounceAccept last n).2 hchain2
    have hshape : ∃ t, debounceStates (debounceAccept last n).2 ns
        = (debounceAccept last n).2 :: t := by
      cases ns <;> exact ⟨_, rfl⟩
    obtain ⟨t, ht⟩ := hshape
    rw [debounceStates, List.scanl_cons]
    show List.Chain' (· ≤ ·) (last :: debounceStates (debounceAccept last n).2 ns)
    rw [ht] at htail ⊢
    exact List.Chain'.cons hle htail

/-! ### Claims about the debouncer and the window handlers -/

/-- C1: the debouncer accepts an activation iff `now - lastTimestamp >=
300 ms`, updating the stored timestamp exactly on acceptance; for two
consecutive activations whose first is accepted, the results are
`(true, false)` when `now2 - now1 < 300 ms` and `(true, true)` when
`now2 - now1 >= 300 ms`. -/
theorem debounce_accept_iff_cooldown (last0 now1 now2 : Nat)
    (h1 : 300 ≤ now1 - last0) :
    SHORTCUT_DEBOUNCE_MS = 300
    ∧ (∀ last now, ((debounceAccept last now).1 = true ↔ 300 ≤ now - last)
        ∧ ((debounceAccept last now).1 = true → (debounceAccept last now).2 = now)
        ∧ ((debounceAccept last now).1 = false → (debounceAccept last now).2 = last))
    ∧ debounceAccept last0 now1 = (true, now1)
    ∧ (now2 - now1 < 300 →
        ((debounceAccept last0 now1).1,
          (debounceAccept (debounceAccept last0 now1).2 now2).1) = (true, false))
    ∧ (300 ≤ now2 - now1 →
        ((debounceAccept last0 now1).1,
          (debounceAccept (debounceAccept last0 now1).2 now2).1) = (true, true)) := by
  have hgen : ∀ last now, ((debounceAccept last now).1 = true ↔ 300 ≤ now - last)
      ∧ ((debounceAccept last now).1 = true → (debounceAccept last now).2 = now)
      ∧ ((debounceAccept last now).1 = false → (debounceAccept last now).2 = last) := by
    intro last now
    unfold debounceAccept SHORTCUT_DEBOUNCE_MS
    split <;> simp <;> omega
  have hfirst : debounceAccept last0 now1 = (true, now1) := by
    unfold debounceAccept SHORTCUT_DEBOUNCE_MS
    rw [if_neg (by omega)]
  have hsecond_lt : now2 - now1 < 300 → debounceAccept now1 now2 = (false, now1) := by
    intro h2
    unfold debounceAccept SHORTCUT_DEBOUNCE_MS
    rw [if_pos (by omega)]
  have hsecond_ge : 300 ≤ now2 - now1 → debounceAccept now1 now2 = (true, now2) := by
    intro h2
    unfold debounceAccept SHORTCUT_DEBOUNCE_MS
    rw [if_neg (by omega)]
  refine ⟨rfl, hgen, hfirst, fun h2 => ?_, fun h2 => ?_⟩
  · rw [hfirst]
    simp [hsecond_lt h2]
  · rw [hfirst]
    simp [hsecond_ge h2]

/-- Witness for C1 at `last0 = 0`, `now1 = 1000`, `now2 = 1100`. -/
theorem debounce_accept_iff_cooldown_witness :
    300 ≤ 1000 - 0
    ∧ (SHORTCUT_DEBOUNCE_MS = 300
    ∧ (∀ last now, ((debounceAccept last now).1 = true ↔ 300 ≤ now - last)
        ∧ ((debounceAccept last now).1 = true → (debounceAccept last now).2 = now)
        ∧ ((debounceAccept last now).1 = false → (debounceAccept last now).2 = last))
    ∧ debounceAccept 0 1000 = (true, 1000)
    ∧ (1100 - 1000 < 300 →
        ((debounceAccept 0 1000).1,
          (debounceAccept (debounceAccept 0 1000).2 1100).1) = (true, false))
    ∧ (300 ≤ 1100 - 1000 →
        ((debounceAccept 0 1000).1,
          (debounceAccept (debounceAccept 0 1000).2 1100).1) = (true, true))) :=
  ⟨by omega, debounce_accept_iff_cooldown 0 1000 1100 (by omega)⟩

/-- C9: on every activation with a clock reading not before the stored
timestamp, the debouncer either keeps the timestamp or replaces it by the
later-or-equal reading, and over any run of non-decreasing readings the
successive stored timestamps are non-decreasing. -/
theorem debounce_timestamp_monotone (last now : Nat) (nows : List Nat)
    (h : last ≤ now) (hchain : List.Chain (· ≤ ·) last nows) :
    (last ≤ (debounceAccept last now).2
      ∧ ((debounceAccept last now).2 = last ∨ (debounceAccept last now).2 = now))
    ∧ List.Chain' (· ≤ ·) (debounceStates last nows) := by
  refine ⟨⟨?_, ?_⟩, debounceStates_chain nows last hchain⟩ <;>
    unfold debounceAccept <;> split <;> simp <;> omega

/-- Witness for C9 at `last = 100`, `now = 150`, readings `[150, 500]`. -/
theorem debounce_timestamp_monotone_witness :
    100 ≤ 150
    ∧ List.Chain (· ≤ ·) 100 [150, 500]
    ∧ ((100 ≤ (debounceAccept 100 150).2
      ∧ ((debounceAccept 100 150).2 = 100 ∨ (debounceAccept 100 150).2 = 150))
    ∧ List.Chain' (· ≤ ·) (debounceStates 100 [150, 500])) :=
  ⟨by omega, List.Chain.cons (by omega) (List.Chain.cons (by omega) List.Chain.nil),
    debounce_timestamp_monotone 100 150 [150, 500] (by omega)
      (List.Chain.cons (by omega) (List.Chain.cons (by omega) List.Chain.nil))⟩

/-- C2 counterexample: selecting the "Show" tray-menu item shows and
focuses the window but emits no event at all — in particular not
`window-shown`, contrary to the claim. -/
theorem tray_show_menu_no_event :
    (onMenuEvent "show" (some ⟨false, false⟩)).2.1 = []
    ∧ "window-shown" ∉ (onMenuEvent "show" (some ⟨false, false⟩)).2.1 := by
  constructor <;> simp [onMenuEvent]

/-- C2 (amended): selecting the "Show" tray-menu item makes the window
visible and gives it input focus, but emits no notification event and does
not exit. -/
theorem tray_show_menu_spec (w : Window) :
    onMenuEvent "show" (some w)
      = (some { w with visible := true, focused := true }, [], none) := by
  simp [onMenuEvent, Window.show, Window.setFocus]

/-- C3: an accepted hotkey while the window is hidden transitions it to
shown (and focused) and emits exactly `window-shown`; `shortcut-action` is
not emitted on this path. -/
theorem toggle_hidden_shows (w : Window) (h : w.visible = false) :
    (onShortcutToggle (some w)).1 = some { w with visible := true, focused := true }
    ∧ (onShortcutToggle (some w)).2 = ["window-shown"]
    ∧ "shortcut-action" ∉ (onShortcutToggle (some w)).2 := by
  refine ⟨?_, ?_, ?_⟩ <;> simp [onShortcutToggle, h, Window.show, Window.setFocus]

/-- Witness for C3 at the hidden unfocused window. -/
theorem toggle_hidden_shows_witness :
    (⟨false, false⟩ : Window).visible = false
    ∧ ((onShortcutToggle (some ⟨false, false⟩)).1 = some ⟨true, true⟩
    ∧ (onShortcutToggle (some ⟨false, false⟩)).2 = ["window-shown"]
    ∧ "shortcut-action" ∉ (onShortcutToggle (some ⟨false, false⟩)).2) :=
  ⟨rfl, toggle_hidden_shows ⟨false, false⟩ rfl⟩

/-- C4: an accepted hotkey while the window is shown leaves the window
untouched and emits exactly one `shortcut-action`. -/
theorem toggle_shown_emits_action (w : Window) (h : w.visible = true) :
    onShortcutToggle (some w) = (some w, ["shortcut-action"])
    ∧ (onShortcutToggle (some w)).2.count "shortcut-action" = 1 := by
  constructor <;> simp [onShortcutToggle, h]

/-- Witness for C4 at the shown focused window. -/
theorem toggle_shown_emits_action_witness :
    (⟨true, true⟩ : Window).visible = true
    ∧ (onShortcutToggle (some ⟨true, true⟩) = (some ⟨true, true⟩, ["shortcut-action"])
    ∧ (onShortcutToggle (some ⟨true, true⟩)).2.count "shortcut-action" = 1) :=
  ⟨rfl, toggle_shown_emits_action ⟨true, true⟩ rfl⟩

/-- C5: a close request on the main window is always cancelled
(`prevent_close`, so the window is never destroyed on this path), leaves
the window hidden, and emits exactly one `window-hidden`. -/
theorem close_request_hides (w : Window) :
    onCloseRequested "main" (some w)
      = (true, some { w with visible := false }, ["window-hidden"])
    ∧ (onCloseRequested "main" (some w)).2.2.count "window-hidden" = 1 := by
  constructor <;> simp [onCloseRequested, Window.hide]

/-- C10: `hide_to_tray` emits `window-hidden` before hiding: a failed emit
returns the error with the window untouched (still visible) and nothing
emitted; a failed hide still has the event emitted; on success the window
ends hidden after the single emission. -/
theorem hide_to_tray_emit_first (w : Window) (e : String) (hideErr : Option String) :
    hide_to_tray w (some e) hideErr = (Except.error e, w, [])
    ∧ hide_to_tray w none (some e) = (Except.error e, w, ["window-hidden"])
    ∧ hide_to_tray w none none
        = (Except.ok (), { w with visible := false }, ["window-hidden"]) :=
  ⟨rfl, rfl, rfl⟩

/-! ### Claims about the config store -/

/-- C6: with no config file on disk, `get_config` returns exactly the
default document and leaves the file system untouched (no write). -/
theorem get_config_default_no_write (fs : FS) (h : fs.file = none) :
    get_config fs = (Except.ok defaultConfig, fs)
    ∧ defaultConfig = Json.obj
        [("whisperUrl", Json.str "https://api.openai.com/v1/audio/transcriptions"),
         ("whisperApiKey", Json.str ""),
         ("llmProvider", Json.str "openai"),
         ("llmApiKey", Json.str "")] := by
  constructor
  · simp [get_config, h]
  · rfl

/-- Witness for C6 at the empty file system. -/
theorem get_config_default_no_write_witness :
    (⟨none⟩ : FS).file = none
    ∧ (get_config ⟨none⟩ = (Except.ok defaultConfig, ⟨none⟩)
    ∧ defaultConfig = Json.obj
        [("whisperUrl", Json.str "https://api.openai.com/v1/audio/transcriptions"),
         ("whisperApiKey", Json.str ""),
         ("llmProvider", Json.str "openai"),
         ("llmApiKey", Json.str "")]) :=
  ⟨rfl, get_config_default_no_write ⟨none⟩ rfl⟩

/-- C8: a present-but-malformed config file makes `get_config` return an
error string, never the default; whenever the file is present the result is
determined by parsing its content. -/
theorem get_config_malformed_err (fs : FS) (content : String)
    (hfile : fs.file = some content) (hbad : parseJsonTop content = none) :
    (get_config fs).1 = Except.error parseErrorMsg
    ∧ (∀ fs' c j, fs'.file = some c → parseJsonTop c = some j →
        (get_config fs').1 = Except.ok j) := by
  constructor
  · simp [get_config, hfile, hbad]
  · intro fs' c j hf hp
    simp [get_config, hf, hp]

/-- Witness for C8 at the file containing a lone opening brace. -/
theorem get_config_malformed_err_witness :
    (⟨some "\x7b"⟩ : FS).file = some "\x7b"
    ∧ parseJsonTop "\x7b" = none
    ∧ ((get_config ⟨some "\x7b"⟩).1 = Except.error parseErrorMsg
    ∧ (∀ fs' c j, fs'.file = some c → parseJsonTop c = some j →
        (get_config fs').1 = Except.ok j)) :=
  ⟨rfl, rfl, get_config_malformed_err ⟨some "\x7b"⟩ "\x7b" rfl rfl⟩

/-! ### Character and whitespace lemmas -/

theorem char_ne_of_toNat_ne {c d : Char} (h : c.toNat ≠ d.toNat) : c ≠ d :=
  fun he => h (he ▸ rfl)

theorem char_eq_of_toNat_eq {c d : Char} (h : c.toNat = d.toNat) : c = d := by
  rw [← Char.ofNat_toNat c, ← Char.ofNat_toNat d, h]

theorem isDigitChar_iff {c : Char} :
    isDigitChar c = true ↔ 48 ≤ c.toNat ∧ c.toNat ≤ 57 := by
  simp [isDigitChar]

theorem isWsChar_eq_false {c : Char}
    (h : c.toNat ≠ 32 ∧ c.toNat ≠ 10 ∧ c.toNat ≠ 9 ∧ c.toNat ≠ 13) :
    isWsChar c = false := by
  simp [isWsChar]
  omega

theorem skipWs_cons_of_not_ws {c : Char} (h : isWsChar c = false) (cs : List Char) :
    skipWs (c :: cs) = c :: cs := by
  simp [skipWs, h]

theorem skipWs_cons_of_ws {c : Char} (h : isWsChar c = true) (cs : List Char) :
    skipWs (c :: cs) = skipWs cs := by
  simp [skipWs, h]

theorem skipWs_replicate_space (k : Nat) (cs : List Char) :
    skipWs (List.replicate k ' ' ++ cs) = skipWs cs := by
  induction k with
  | zero => rfl
  | succ n ih =>
    rw [List.replicate_succ, List.cons_append, skipWs_cons_of_ws (by decide)]
    exact ih

theorem skipWs_nIndent (d : Nat) (cs : List Char) :
    skipWs (nIndent d ++ cs) = skipWs cs :=
  skipWs_replicate_space (2 * d) cs

theorem skipWs_newline (cs : List Char) : skipWs ('\n' :: cs) = skipWs cs :=
  skipWs_cons_of_ws (by decide) cs

/-! ### Decimal digit lemmas -/

theorem digitChar_toNat {d : Nat} (h : d < 10) :
    (Nat.digitChar d).toNat = 48 + d := by
  interval_cases d <;> rfl

theorem digitChar_isDigit {d : Nat} (h : d < 10) :
    isDigitChar (Nat.digitChar d) = true := by
  rw [isDigitChar_iff, digitChar_toNat h]
  omega

theorem hexVal_digitChar {d : Nat} (h : d < 16) :
    hexVal (Nat.digitChar d) = some d := by
  interval_cases d <;> rfl

theorem printNat_digits (m : Nat) : ∀ c ∈ printNat m, isDigitChar c = true := by
  unfold printNat
  split
  · intro c hc
    simp at hc
    subst hc
    decide
  · intro c hc
    rw [List.mem_map] at hc
    obtain ⟨d, hd, rfl⟩ := hc
    exact digitChar_isDigit (Nat.digits_lt_base (by norm_num) (List.mem_reverse.mp hd))

theorem printNat_head (m : Nat) :
    ∃ c t, printNat m = c :: t ∧ isDigitChar c = true := by
  rcases hh : printNat m with _ | ⟨c, t⟩
  · exfalso
    unfold printNat at hh
    split at hh
    · simp at hh
    · rename_i hm
      rw [List.map_eq_nil_iff, List.reverse_eq_nil_iff] at hh
      exact hm (Nat.digits_ne_nil_iff_ne_zero.mpr hm hh).elim
  · exact ⟨c, t, rfl, printNat_digits m c (hh ▸ List.mem_cons_self c t)⟩

theorem parseDigitsAux_spec (ds : List Char) :
    ∀ (rest : List Char) (acc : Nat), (∀ c ∈ ds, isDigitChar c = true) →
      noDigitHead rest = true →
      parseDigitsAux (ds ++ rest) acc
        = (ds.foldl (fun a c => a * 10 + (c.toNat - 48)) acc, rest) := by
  induction ds with
  | nil =>
    intro rest acc _ hrest
    cases rest with
    | nil => rfl
    | cons c t =>
      unfold noDigitHead at hrest
      unfold parseDigitsAux
      simp at hrest
      simp [hrest]
  | cons d ds ih =>
    intro rest acc hds hrest
    have hd : isDigitChar d = true := hds d (List.mem_cons_self d ds)
    rw [List.cons_append]
    unfold parseDigitsAux
    rw [if_pos hd, ih rest _ (fun c hc => hds c (List.mem_cons_of_mem d hc)) hrest,
      List.foldl_cons]

theorem foldl_digitChar_map (l : List Nat) :
    ∀ acc : Nat, (∀ d ∈ l, d < 10) →
      List.foldl (fun a c => a * 10 + (c.toNat - 48)) acc (l.map Nat.digitChar)
        = List.foldl (fun a d => a * 10 + d) acc l := by
  induction l with
  | nil => intro acc _; rfl
  | cons d t ih =>
    intro acc hl
    have hd : d < 10 := hl d (List.mem_cons_self d t)
    rw [List.map_cons, List.foldl_cons, List.foldl_cons,
      digitChar_toNat hd, Nat.add_sub_cancel_left,
      ih _ (fun x hx => hl x (List.mem_cons_of_mem d hx))]

theorem foldl_base10_reverse (l : List Nat) :
    ∀ acc : Nat, List.foldl (fun a d => a * 10 + d) acc l.reverse
      = acc * 10 ^ l.length + Nat.ofDigits 10 l := by
  induction l with
  | nil => intro acc; simp
  | cons d t ih =>
    intro acc
    rw [List.reverse_cons, List.foldl_append, ih acc, List.foldl_cons, List.foldl_nil,
      Nat.ofDigits_cons, List.length_cons, pow_succ]
    ring

theorem printNat_value (m : Nat) :
    List.foldl (fun a c => a * 10 + (c.toNat - 48)) 0 (printNat m) = m := by
  unfold printNat
  split
  · rename_i hm
    subst hm
    decide
  · rw [foldl_digitChar_map _ _
      (fun d hd => Nat.digits_lt_base (by norm_num) (List.mem_reverse.mp hd)),
      foldl_base10_reverse]
    simp [Nat.ofDigits_digits]

/-! ### String escaping round trip -/

theorem string_mk_data (s : String) : String.mk s.data = s := rfl

@[simp] theorem toNat_backslash : ('\\').toNat = 92 := rfl

@[simp] theorem toNat_quote : ('"').toNat = 34 := rfl

@[simp] theorem toNat_slash : ('/').toNat = 47 := rfl

@[simp] theorem toNat_lower_n : ('n').toNat = 110 := rfl

@[simp] theorem toNat_lower_t : ('t').toNat = 116 := rfl

@[simp] theorem toNat_lower_r : ('r').toNat = 114 := rfl

@[simp] theorem toNat_lower_b : ('b').toNat = 98 := rfl

@[simp] theorem toNat_lower_f : ('f').toNat = 102 := rfl

@[simp] theorem toNat_lower_u : ('u').toNat = 117 := rfl

@[simp] theorem toNat_newline : ('\n').toNat = 10 := rfl

@[simp] theorem toNat_tab : ('\t').toNat = 9 := rfl

@[simp] theorem toNat_cr : ('\x0d').toNat = 13 := rfl

@[simp] theorem toNat_bs_char : ('\x08').toNat = 8 := rfl

@[simp] theorem toNat_ff_char : ('\x0c').toNat = 12 := rfl

@[simp] theorem toNat_zero_char : ('0').toNat = 48 := rfl

@[simp] theorem toNat_space : (' ').toNat = 32 := rfl

@[simp] theorem toNat_colon : (':').toNat = 58 := rfl

@[simp] theorem toNat_comma : (',').toNat = 44 := rfl

@[simp] theorem toNat_minus : ('-').toNat = 45 := rfl

@[simp] theorem toNat_lbracket : ('[').toNat = 91 := rfl

@[simp] theorem toNat_rbracket : (']').toNat = 93 := rfl

@[simp] theorem toNat_lbrace : ('\x7b').toNat = 123 := rfl

@[simp] theorem toNat_rbrace : ('\x7d').toNat = 125 := rfl

/-- Unfolding equation for `parseStringBody` on a cons cell. -/
theorem parseStringBody_cons_eq (c : Char) (cs : List Char) :
    parseStringBody (c :: cs) =
      (if c.toNat = 34 then some ([], cs)
      else if c.toNat = 92 then
        match cs with
        | [] => none
        | e :: cs' =>
          if e.toNat = 34 then (parseStringBody cs').map (fun r => ('"' :: r.1, r.2))
          else if e.toNat = 92 then (parseStringBody cs').map (fun r => ('\\' :: r.1, r.2))
          else if e.toNat = 47 then (parseStringBody cs').map (fun r => ('/' :: r.1, r.2))
          else if e.toNat = 110 then (parseStringBody cs').map (fun r => ('\n' :: r.1, r.2))
          else if e.toNat = 116 then (parseStringBody cs').map (fun r => ('\t' :: r.1, r.2))
          else if e.toNat = 114 then (parseStringBody cs').map (fun r => ('\r' :: r.1, r.2))
          else if e.toNat = 98 then (parseStringBody cs').map (fun r => ('\x08' :: r.1, r.2))
          else if e.toNat = 102 then (parseStringBody cs').map (fun r => ('\x0c' :: r.1, r.2))
          else if e.toNat = 117 then
            match cs' with
            | h1 :: h2 :: h3 :: h4 :: cs2 =>
              match hexVal h1, hexVal h2, hexVal h3, hexVal h4 with
              | some a, some b, some a2, some b2 =>
                if 55296 ≤ ((a * 16 + b) * 16 + a2) * 16 + b2 ∧
                    ((a * 16 + b) * 16 + a2) * 16 + b2 < 57344 then none
                else (parseStringBody cs2).map
                  (fun r => (Char.ofNat (((a * 16 + b) * 16 + a2) * 16 + b2) :: r.1, r.2))
              | _, _, _, _ => none
            | _ => none
          else none
      else if c.toNat < 32 then none
      else (parseStringBody cs).map (fun r => (c :: r.1, r.2))) := by
  rw [parseStringBody.eq_def]

theorem escList_cons (c : Char) (l : List Char) :
    escList (c :: l) = escapeChar c ++ escList l := by
  simp [escList]

theorem parseStringBody_escapeChar (c : Char) (cs : List Char) :
    parseStringBody (escapeChar c ++ cs)
      = (parseStringBody cs).map (fun r => (c :: r.1, r.2)) := by
  by_cases h34 : c.toNat = 34
  · have hc : c = '"' := char_eq_of_toNat_eq (by rw [h34]; rfl)
    subst hc
    simp [escapeChar, parseStringBody_cons_eq]
  by_cases h92 : c.toNat = 92
  · have hc : c = '\\' := char_eq_of_toNat_eq (by rw [h92]; rfl)
    subst hc
    simp [escapeChar, parseStringBody_cons_eq]
  by_cases h10 : c.toNat = 10
  · have hc : c = '\n' := char_eq_of_toNat_eq (by rw [h10]; rfl)
    subst hc
    simp [escapeChar, parseStringBody_cons_eq]
  by_cases h9 : c.toNat = 9
  · have hc : c = '\t' := char_eq_of_toNat_eq (by rw [h9]; rfl)
    subst hc
    simp [escapeChar, parseStringBody_cons_eq]
  by_cases h13 : c.toNat = 13
  · have hc : c = '\x0d' := char_eq_of_toNat_eq (by rw [h13]; rfl)
    subst hc
    simp [escapeChar, parseStringBody_cons_eq]
  by_cases h8 : c.toNat = 8
  · have hc : c = '\x08' := char_eq_of_toNat_eq (by rw [h8]; rfl)
    subst hc
    simp [escapeChar, parseStringBody_cons_eq]
  by_cases h12 : c.toNat = 12
  · have hc : c = '\x0c' := char_eq_of_toNat_eq (by rw [h12]; rfl)
    subst hc
    simp [escapeChar, parseStringBody_cons_eq]
  by_cases hlt : c.toNat < 32
  · rw [escapeChar, if_neg h34, if_neg h92, if_neg h10, if_neg h9, if_neg h13,
      if_neg h8, if_neg h12, if_pos hlt]
    simp only [hexChar, List.cons_append, List.nil_append]
    rw [parseStringBody_cons_eq]
    have hhi := hexVal_digitChar (show c.toNat / 16 < 16 by omega)
    have hlo := hexVal_digitChar (show c.toNat % 16 < 16 by omega)
    have hn : c.toNat / 16 * 16 + c.toNat % 16 = c.toNat := by omega
    have hsur : ¬(55296 ≤ c.toNat ∧ c.toNat < 57344) := by omega
    simp [hhi, hlo, show hexVal '0' = some 0 from rfl, hn, hsur, Char.ofNat_toNat]
  · rw [escapeChar, if_neg h34, if_neg h92, if_neg h10, if_neg h9, if_neg h13,
      if_neg h8, if_neg h12, if_neg hlt, List.singleton_append,
      parseStringBody_cons_eq, if_neg h34, if_neg h92, if_neg (by omega)]

theorem parseStringBody_escList (l : List Char) :
    ∀ rest : List Char,
      parseStringBody (escList l ++ '"' :: rest) = some (l, rest) := by
  induction l with
  | nil =>
    intro rest
    rw [escList]
    simp only [List.map_nil, List.flatten_nil, List.nil_append]
    rw [parseStringBody_cons_eq, if_pos (by rfl)]
  | cons c l ih =>
    intro rest
    rw [escList_cons, List.append_assoc, parseStringBody_escapeChar, ih rest]
    rfl

/-! ### Printer unfolding equations and head facts -/

theorem printJson_null (d : Nat) : printJson d Json.null = "null".data := by
  rw [printJson]

theorem printJson_true (d : Nat) : printJson d (Json.bool true) = "true".data := by
  rw [printJson]

theorem printJson_false (d : Nat) :
    printJson d (Json.bool false) = "false".data := by
  rw [printJson]

theorem printJson_num (d : Nat) (n : Int) : printJson d (Json.num n) = printInt n := by
  rw [printJson]

theorem printJson_str (d : Nat) (s : String) :
    printJson d (Json.str s) = '"' :: (escList s.data ++ ['"']) := by
  rw [printJson]

theorem printJson_arr_nil (d : Nat) : printJson d (Json.arr []) = "[]".data := by
  rw [printJson]

theorem printJson_arr_cons (d : Nat) (x : Json) (xs : List Json) :
    printJson d (Json.arr (x :: xs))
      = '[' :: '\n' :: (nIndent (d + 1) ++ (printJson (d + 1) x ++
        (printArrTail (d + 1) xs ++ ('\n' :: (nIndent d ++ [']']))))) := by
  rw [printJson]

theorem printJson_obj_nil (d : Nat) : printJson d (Json.obj []) = "\x7b\x7d".data := by
  rw [printJson]

theorem printJson_obj_cons (d : Nat) (p : String × Json) (ps : List (String × Json)) :
    printJson d (Json.obj (p :: ps))
      = '\x7b' :: '\n' :: (nIndent (d + 1) ++ (printMember (d + 1) p ++
        (printObjTail (d + 1) ps ++ ('\n' :: (nIndent d ++ ['\x7d']))))) := by
  rw [printJson]

theorem printArrTail_nil (d : Nat) : printArrTail d [] = [] := by
  rw [printArrTail]

theorem printArrTail_cons (d : Nat) (y : Json) (ys : List Json) :
    printArrTail d (y :: ys)
      = ',' :: '\n' :: (nIndent d ++ (printJson d y ++ printArrTail d ys)) := by
  rw [printArrTail]

theorem printMember_eq (d : Nat) (k : String) (v : Json) :
    printMember d (k, v)
      = '"' :: (escList k.data ++ ('"' :: ':' :: ' ' :: printJson d v)) := by
  rw [printMember]

theorem printObjTail_nil (d : Nat) : printObjTail d [] = [] := by
  rw [printObjTail]

theorem printObjTail_cons (d : Nat) (q : String × Json) (qs : List (String × Json)) :
    printObjTail d (q :: qs)
      = ',' :: '\n' :: (nIndent d ++ (printMember d q ++ printObjTail d qs)) := by
  rw [printObjTail]

/-- Every printed value starts with a non-whitespace character that is not
a closing bracket, closing brace or comma. -/
theorem printJson_head (d : Nat) (j : Json) :
    ∃ c t, printJson d j = c :: t ∧ isWsChar c = false
      ∧ c.toNat ≠ 93 ∧ c.toNat ≠ 125 ∧ c.toNat ≠ 44 := by
  cases j with
  | null => exact ⟨'n', _, printJson_null d, by decide, by decide, by decide, by decide⟩
  | bool b =>
    cases b with
    | true => exact ⟨'t', _, printJson_true d, by decide, by decide, by decide, by decide⟩
    | false => exact ⟨'f', _, printJson_false d, by decide, by decide, by decide, by decide⟩
  | num n =>
    rw [printJson_num]
    unfold printInt
    split
    · exact ⟨'-', _, rfl, by decide, by decide, by decide, by decide⟩
    · obtain ⟨c, t, he, hd⟩ := printNat_head n.toNat
      rw [isDigitChar_iff] at hd
      exact ⟨c, t, he, isWsChar_eq_false (by omega), by omega, by omega, by omega⟩
  | str s => exact ⟨'"', _, printJson_str d s, by decide, by decide, by decide, by decide⟩
  | arr l =>
    cases l with
    | nil => exact ⟨'[', _, printJson_arr_nil d, by decide, by decide, by decide, by decide⟩
    | cons x xs =>
      exact ⟨'[', _, printJson_arr_cons d x xs, by decide, by decide, by decide, by decide⟩
  | obj l =>
    cases l with
    | nil =>
      exact ⟨'\x7b', _, printJson_obj_nil d, by decide, by decide, by decide, by decide⟩
    | cons p ps =>
      exact ⟨'\x7b', _, printJson_obj_cons d p ps, by decide, by decide, by decide, by decide⟩

/-- Whitespace skipping stops at the head of any printed value. -/
theorem skipWs_printJson (d : Nat) (j : Json) (rest : List Char) :
    skipWs (printJson d j ++ rest) = printJson d j ++ rest := by
  obtain ⟨c, t, he, hws, _, _, _⟩ := printJson_head d j
  rw [he, List.cons_append, skipWs_cons_of_not_ws hws]

/-- A printed tail of array elements (followed by the newline that precedes
the closing bracket) never starts with a digit. -/
theorem noDigitHead_printArrTail (d : Nat) (xs : List Json) (z : List Char) :
    noDigitHead (printArrTail d xs ++ '\n' :: z) = true := by
  cases xs with
  | nil => rw [printArrTail_nil]; rfl
  | cons y ys => rw [printArrTail_cons]; rfl

/-- A printed tail of object members (followed by the newline that precedes
the closing brace) never starts with a digit. -/
theorem noDigitHead_printObjTail (d : Nat) (qs : List (String × Json)) (z : List Char) :
    noDigitHead (printObjTail d qs ++ '\n' :: z) = true := by
  cases qs with
  | nil => rw [printObjTail_nil]; rfl
  | cons q qs' => rw [printObjTail_cons]; rfl

/-! ### Parser unfolding and whitespace congruence -/

theorem parseVal_succ (fuel : Nat) (cs : List Char) :
    parseVal (fuel + 1) cs =
      (match skipWs cs with
      | [] => none
      | c :: rest =>
        if c.toNat = 110 then
          match rest with
          | 'u' :: 'l' :: 'l' :: r => some (.null, r)
          | _ => none
        else if c.toNat = 116 then
          match rest with
          | 'r' :: 'u' :: 'e' :: r => some (.bool true, r)
          | _ => none
        else if c.toNat = 102 then
          match rest with
          | 'a' :: 'l' :: 's' :: 'e' :: r => some (.bool false, r)
          | _ => none
        else if c.toNat = 34 then
          match parseStringBody rest with
          | some (l, r) => some (.str (String.mk l), r)
          | none => none
        else if c.toNat = 45 then
          match rest with
          | d0 :: _ =>
            if isDigitChar d0 then
              match parseDigitsAux rest 0 with
              | (v, r) => some (.num (-(v : Int)), r)
            else none
          | [] => none
        else if isDigitChar c then
          match parseDigitsAux (c :: rest) 0 with
          | (v, r) => some (.num (v : Int), r)
        else if c.toNat = 91 then
          match skipWs rest with
          | [] => none
          | c2 :: r2 =>
            if c2.toNat = 93 then some (.arr [], r2)
            else
              match parseVal fuel (c2 :: r2) with
              | some (v, r3) =>
                match parseArrTail fuel r3 with
                | some (vs, r4) => some (.arr (v :: vs), r4)
                | none => none
              | none => none
        else if c.toNat = 123 then
          match skipWs rest with
          | [] => none
          | c2 :: r2 =>
            if c2.toNat = 125 then some (.obj [], r2)
            else
              match parseMember fuel (c2 :: r2) with
              | some (p, r3) =>
                match parseObjTail fuel r3 with
                | some (ps, r4) => some (.obj (p :: ps), r4)
                | none => none
              | none => none
        else none) := rfl

theorem parseArrTail_succ (fuel : Nat) (cs : List Char) :
    parseArrTail (fuel + 1) cs =
      (match skipWs cs with
      | [] => none
      | c :: rest =>
        if c.toNat = 93 then some ([], rest)
        else if c.toNat = 44 then
          match parseVal fuel rest with
          | some (v, r2) =>
            match parseArrTail fuel r2 with
            | some (vs, r3) => some (v :: vs, r3)
            | none => none
          | none => none
        else none) := rfl

theorem parseMember_succ (fuel : Nat) (cs : List Char) :
    parseMember (fuel + 1) cs =
      (match skipWs cs with
      | [] => none
      | c :: rest =>
        if c.toNat = 34 then
          match parseStringBody rest with
          | some (l, r1) =>
            match skipWs r1 with
            | ':' :: r2 =>
              match parseVal fuel r2 with
              | some (v, r3) => some ((String.mk l, v), r3)
              | none => none
            | _ => none
          | none => none
        else none) := rfl

theorem parseObjTail_succ (fuel : Nat) (cs : List Char) :
    parseObjTail (fuel + 1) cs =
      (match skipWs cs with
      | [] => none
      | c :: rest =>
        if c.toNat = 125 then some ([], rest)
        else if c.toNat = 44 then
          match parseMember fuel rest with
          | some (p, r2) =>
            match parseObjTail fuel r2 with
            | some (ps, r3) => some (p :: ps, r3)
            | none => none
          | none => none
        else none) := rfl

/-- `parseVal` only looks at its input through `skipWs`. -/
theorem parseVal_congr_skipWs (fuel : Nat) (cs cs' : List Char)
    (h : skipWs cs = skipWs cs') : parseVal fuel cs = parseVal fuel cs' := by
  cases fuel with
  | zero => rfl
  | succ f => rw [parseVal_succ, parseVal_succ, h]

/-- `parseArrTail` only looks at its input through `skipWs`. -/
theorem parseArrTail_congr_skipWs (fuel : Nat) (cs cs' : List Char)
    (h : skipWs cs = skipWs cs') : parseArrTail fuel cs = parseArrTail fuel cs' := by
  cases fuel with
  | zero => rfl
  | succ f => rw [parseArrTail_succ, parseArrTail_succ, h]

/-- `parseMember` only looks at its input through `skipWs`. -/
theorem parseMember_congr_skipWs (fuel : Nat) (cs cs' : List Char)
    (h : skipWs cs = skipWs cs') : parseMember fuel cs = parseMember fuel cs' := by
  cases fuel with
  | zero => rfl
  | succ f => rw [parseMember_succ, parseMember_succ, h]

/-- `parseObjTail` only looks at its input through `skipWs`. -/
theorem parseObjTail_congr_skipWs (fuel : Nat) (cs cs' : List Char)
    (h : skipWs cs = skipWs cs') : parseObjTail fuel cs = parseObjTail fuel cs' := by
  cases fuel with
  | zero => rfl
  | succ f => rw [parseObjTail_succ, parseObjTail_succ, h]

/-! ### Induction principle and cost equations -/

theorem Json.recAux (P : Json → Prop)
    (hnull : P Json.null)
    (hbool : ∀ b, P (Json.bool b))
    (hnum : ∀ n, P (Json.num n))
    (hstr : ∀ s, P (Json.str s))
    (harr : ∀ l, (∀ x ∈ l, P x) → P (Json.arr l))
    (hobj : ∀ l, (∀ p ∈ l, P p.2) → P (Json.obj l)) :
    ∀ j, P j := fun j =>
  match j with
  | .null => hnull
  | .bool b => hbool b
  | .num n => hnum n
  | .str s => hstr s
  | .arr l => harr l (fun x hx => Json.recAux P hnull hbool hnum hstr harr hobj x)
  | .obj l => hobj l (fun p hp => Json.recAux P hnull hbool hnum hstr harr hobj p.2)
termination_by j => sizeOf j
decreasing_by
  · calc sizeOf x < sizeOf l := List.sizeOf_lt_of_mem hx
      _ < sizeOf (Json.arr l) := by simp
  · have h1 : sizeOf p < sizeOf l := List.sizeOf_lt_of_mem hp
    have h2 : sizeOf p.2 < sizeOf p := by
      obtain ⟨a, b⟩ := p
      simp
    calc sizeOf p.2 < sizeOf l := by omega
      _ < sizeOf (Json.obj l) := by simp

theorem costVal_null : costVal Json.null = 1 := by rw [costVal, leafCost]

theorem costVal_bool (b : Bool) : costVal (Json.bool b) = 1 := by rw [costVal, leafCost]

theorem costVal_num (n : Int) : costVal (Json.num n) = 1 := by rw [costVal, leafCost]

theorem costVal_str (s : String) : costVal (Json.str s) = 1 := by rw [costVal, leafCost]

theorem costVal_arr_nil : costVal (Json.arr []) = 1 := by rw [costVal, leafCost]

theorem costVal_arr_cons (x : Json) (xs : List Json) :
    costVal (Json.arr (x :: xs)) = costVal x + costArrTail xs + 1 := by rw [costVal]

theorem costVal_obj_nil : costVal (Json.obj []) = 1 := by rw [costVal, leafCost]

theorem costVal_obj_cons (p : String × Json) (ps : List (String × Json)) :
    costVal (Json.obj (p :: ps)) = costMember p + costObjTail ps + 1 := by rw [costVal]

theorem costArrTail_nil : costArrTail [] = 1 := by rw [costArrTail]

theorem costArrTail_cons (y : Json) (ys : List Json) :
    costArrTail (y :: ys) = costVal y + costArrTail ys + 1 := by rw [costArrTail]

theorem costMember_eq (k : String) (v : Json) :
    costMember (k, v) = costVal v + 1 := by rw [costMember]

theorem costObjTail_nil : costObjTail [] = 1 := by rw [costObjTail]

theorem costObjTail_cons (q : String × Json) (qs : List (String × Json)) :
    costObjTail (q :: qs) = costMember q + costObjTail qs + 1 := by rw [costObjTail]

/-! ### The parse-print round trip -/

theorem parse_print_arrTail (xs : List Json)
    (hxs : ∀ x ∈ xs, ∀ (d' : Nat) (rest' : List Char) (extra' : Nat),
      noDigitHead rest' = true →
      parseVal (costVal x + extra') (printJson d' x ++ rest') = some (x, rest')) :
    ∀ (d : Nat) (rest : List Char) (extra : Nat),
      parseArrTail (costArrTail xs + extra)
        (printArrTail (d + 1) xs ++ ('\n' :: (nIndent d ++ (']' :: rest))))
        = some (xs, rest) := by
  induction xs with
  | nil =>
    intro d rest extra
    rw [show costArrTail [] + extra = extra + 1 by rw [costArrTail_nil]; omega,
      printArrTail_nil, List.nil_append, parseArrTail_succ, skipWs_newline,
      skipWs_nIndent, skipWs_cons_of_not_ws (show isWsChar ']' = false by decide)]
    simp
  | cons y ys ih =>
    intro d rest extra
    have hy := hxs y (List.mem_cons_self y ys)
    have ih' := ih (fun x hx => hxs x (List.mem_cons_of_mem y hx))
    rw [show costArrTail (y :: ys) + extra
        = (costVal y + (costArrTail ys + extra)) + 1 by rw [costArrTail_cons]; omega,
      printArrTail_cons, List.cons_append, List.cons_append, parseArrTail_succ,
      skipWs_cons_of_not_ws (show isWsChar ',' = false by decide)]
    simp only [List.append_assoc]
    rw [if_neg (show ¬(',').toNat = 93 by decide),
      if_pos (show (',').toNat = 44 from rfl)]
    rw [parseVal_congr_skipWs _ _
        (printJson (d + 1) y ++ (printArrTail (d + 1) ys ++ ('\n' :: (nIndent d ++ (']' :: rest)))))
        (by rw [skipWs_newline, skipWs_nIndent]),
      hy (d + 1) _ (costArrTail ys + extra) (noDigitHead_printArrTail (d + 1) ys _)]
    simp only []
    rw [show costVal y + (costArrTail ys + extra) = costArrTail ys + (costVal y + extra) by
        omega,
      ih' d rest (costVal y + extra)]

theorem skipWs_printMember (d : Nat) (p : String × Json) (rest : List Char) :
    skipWs (printMember d p ++ rest) = printMember d p ++ rest := by
  obtain ⟨k, v⟩ := p
  rw [printMember_eq, List.cons_append,
    skipWs_cons_of_not_ws (show isWsChar '"' = false by decide)]

theorem parse_print_member (k : String) (v : Json)
    (hv : ∀ (d' : Nat) (rest' : List Char) (extra' : Nat), noDigitHead rest' = true →
      parseVal (costVal v + extra') (printJson d' v ++ rest') = some (v, rest')) :
    ∀ (d : Nat) (rest : List Char) (extra : Nat), noDigitHead rest = true →
      parseMember (costMember (k, v) + extra) (printMember d (k, v) ++ rest)
        = some ((k, v), rest) := by
  intro d rest extra hrest
  rw [show costMember (k, v) + extra = (costVal v + extra) + 1 by
      rw [costMember_eq]; omega,
    printMember_eq, List.cons_append, parseMember_succ,
    skipWs_cons_of_not_ws (show isWsChar '"' = false by decide)]
  simp only [List.append_assoc, List.cons_append]
  rw [if_pos (show ('"').toNat = 34 from rfl), parseStringBody_escList]
  simp only []
  rw [skipWs_cons_of_not_ws (show isWsChar ':' = false by decide)]
  simp only []
  rw [parseVal_congr_skipWs _ _ (printJson d v ++ rest)
      (by rw [skipWs_cons_of_ws (show isWsChar ' ' = true by decide)]),
    hv d rest extra hrest]

theorem parse_print_objTail (qs : List (String × Json))
    (hqs : ∀ q ∈ qs, ∀ (d' : Nat) (rest' : List Char) (extra' : Nat),
      noDigitHead rest' = true →
      parseVal (costVal q.2 + extra') (printJson d' q.2 ++ rest') = some (q.2, rest')) :
    ∀ (d : Nat) (rest : List Char) (extra : Nat),
      parseObjTail (costObjTail qs + extra)
        (printObjTail (d + 1) qs ++ ('\n' :: (nIndent d ++ ('\x7d' :: rest))))
        = some (qs, rest) := by
  induction qs with
  | nil =>
    intro d rest extra
    rw [show costObjTail [] + extra = extra + 1 by rw [costObjTail_nil]; omega,
      printObjTail_nil, List.nil_append, parseObjTail_succ, skipWs_newline,
      skipWs_nIndent, skipWs_cons_of_not_ws (show isWsChar '\x7d' = false by decide)]
    simp
  | cons q qs' ih =>
    intro d rest extra
    obtain ⟨k, v⟩ := q
    have hv := hqs (k, v) (List.mem_cons_self (k, v) qs')
    have ih' := ih (fun x hx => hqs x (List.mem_cons_of_mem (k, v) hx))
    rw [show costObjTail ((k, v) :: qs') + extra
        = (costMember (k, v) + (costObjTail qs' + extra)) + 1 by
        rw [costObjTail_cons]; omega,
      printObjTail_cons, List.cons_append, List.cons_append, parseObjTail_succ,
      skipWs_cons_of_not_ws (show isWsChar ',' = false by decide)]
    simp only [List.append_assoc]
    rw [if_neg (show ¬(',').toNat = 125 by decide),
      if_pos (show (',').toNat = 44 from rfl)]
    rw [parseMember_congr_skipWs _ _
        (printMember (d + 1) (k, v) ++
          (printObjTail (d + 1) qs' ++ ('\n' :: (nIndent d ++ ('\x7d' :: rest)))))
        (by rw [skipWs_newline, skipWs_nIndent, skipWs_printMember]),
      parse_print_member k v hv (d + 1) _ (costObjTail qs' + extra)
        (noDigitHead_printObjTail (d + 1) qs' _)]
    simp only []
    rw [show costMember (k, v) + (costObjTail qs' + extra)
        = costObjTail qs' + (costMember (k, v) + extra) by omega,
      ih' d rest (costMember (k, v) + extra)]

/-- Parsing inverts pretty-printing: at any depth, with any non-digit-headed
continuation and any extra fuel. -/
theorem parse_printJson (j : Json) :
    ∀ (d : Nat) (rest : List Char) (extra : Nat), noDigitHead rest = true →
      parseVal (costVal j + extra) (printJson d j ++ rest) = some (j, rest) := by
  induction j using Json.recAux with
  | hnull =>
    intro d rest extra _
    rw [show costVal Json.null + extra = extra + 1 by rw [costVal_null]; omega,
      printJson_null, parseVal_succ,
      show ("null".data ++ rest : List Char) = 'n' :: ("ull".data ++ rest) from rfl,
      skipWs_cons_of_not_ws (show isWsChar 'n' = false by decide)]
    simp only []
    rw [if_pos (show ('n').toNat = 110 from rfl)]
    rfl
  | hbool b =>
    intro d rest extra _
    cases b with
    | true =>
      rw [show costVal (Json.bool true) + extra = extra + 1 by rw [costVal_bool]; omega,
        printJson_true, parseVal_succ,
        show ("true".data ++ rest : List Char) = 't' :: ("rue".data ++ rest) from rfl,
        skipWs_cons_of_not_ws (show isWsChar 't' = false by decide)]
      simp only []
      rw [if_neg (show ¬('t').toNat = 110 by decide),
        if_pos (show ('t').toNat = 116 from rfl)]
      rfl
    | false =>
      rw [show costVal (Json.bool false) + extra = extra + 1 by rw [costVal_bool]; omega,
        printJson_false, parseVal_succ,
        show ("false".data ++ rest : List Char) = 'f' :: ("alse".data ++ rest) from rfl,
        skipWs_cons_of_not_ws (show isWsChar 'f' = false by decide)]
      simp only []
      rw [if_neg (show ¬('f').toNat = 110 by decide),
        if_neg (show ¬('f').toNat = 116 by decide),
        if_pos (show ('f').toNat = 102 from rfl)]
      rfl
  | hnum n =>
    intro d rest extra hrest
    rw [show costVal (Json.num n) + extra = extra + 1 by rw [costVal_num]; omega,
      printJson_num, printInt]
    by_cases hneg : n < 0
    · rw [if_pos hneg, List.cons_append, parseVal_succ,
        skipWs_cons_of_not_ws (show isWsChar '-' = false by decide)]
      simp only []
      rw [if_neg (show ¬('-').toNat = 110 by decide),
        if_neg (show ¬('-').toNat = 116 by decide),
        if_neg (show ¬('-').toNat = 102 by decide),
        if_neg (show ¬('-').toNat = 34 by decide),
        if_pos (show ('-').toNat = 45 from rfl)]
      obtain ⟨c, t, he, hdc⟩ := printNat_head n.natAbs
      rw [he, List.cons_append]
      simp only []
      rw [if_pos hdc,
        show c :: (t ++ rest) = (c :: t) ++ rest from rfl, ← he,
        parseDigitsAux_spec (printNat n.natAbs) rest 0 (printNat_digits n.natAbs) hrest]
      simp only []
      rw [printNat_value, show -((n.natAbs : Nat) : Int) = n by omega]
    · rw [if_neg hneg]
      obtain ⟨c, t, he, hdc⟩ := printNat_head n.toNat
      have hcb := isDigitChar_iff.mp hdc
      rw [parseVal_succ, he, List.cons_append,
        skipWs_cons_of_not_ws (isWsChar_eq_false (by omega))]
      simp only []
      rw [if_neg (show ¬c.toNat = 110 by omega),
        if_neg (show ¬c.toNat = 116 by omega),
        if_neg (show ¬c.toNat = 102 by omega),
        if_neg (show ¬c.toNat = 34 by omega),
        if_neg (show ¬c.toNat = 45 by omega),
        if_pos hdc,
        show c :: (t ++ rest) = (c :: t) ++ rest from rfl, ← he,
        parseDigitsAux_spec (printNat n.toNat) rest 0 (printNat_digits n.toNat) hrest]
      simp only []
      rw [printNat_value, show ((n.toNat : Nat) : Int) = n by omega]
  | hstr s =>
    intro d rest extra _
    rw [show costVal (Json.str s) + extra = extra + 1 by rw [costVal_str]; omega,
      printJson_str, List.cons_append, parseVal_succ,
      skipWs_cons_of_not_ws (show isWsChar '"' = false by decide)]
    simp only [List.append_assoc, List.singleton_append]
    rw [if_neg (show ¬('"').toNat = 110 by decide),
      if_neg (show ¬('"').toNat = 116 by decide),
      if_neg (show ¬('"').toNat = 102 by decide),
      if_pos (show ('"').toNat = 34 from rfl),
      parseStringBody_escList]
  | harr l hl =>
    cases l with
    | nil =>
      intro d rest extra _
      rw [show costVal (Json.arr []) + extra = extra + 1 by rw [costVal_arr_nil]; omega,
        printJson_arr_nil, parseVal_succ,
        show ("[]".data ++ rest : List Char) = '[' :: (']' :: rest) from rfl,
        skipWs_cons_of_not_ws (show isWsChar '[' = false by decide)]
      simp only []
      rw [if_neg (show ¬('[').toNat = 110 by decide),
        if_neg (show ¬('[').toNat = 116 by decide),
        if_neg (show ¬('[').toNat = 102 by decide),
        if_neg (show ¬('[').toNat = 34 by decide),
        if_neg (show ¬('[').toNat = 45 by decide),
        if_neg (show ¬isDigitChar '[' = true by decide),
        if_pos (show ('[').toNat = 91 from rfl),
        skipWs_cons_of_not_ws (show isWsChar ']' = false by decide)]
      simp only []
      rw [if_pos (show (']').toNat = 93 from rfl)]
    | cons x xs =>
      intro d rest extra hrest
      have hx := hl x (List.mem_cons_self x xs)
      have hxs : ∀ y ∈ xs, ∀ (d' : Nat) (rest' : List Char) (extra' : Nat),
          noDigitHead rest' = true →
          parseVal (costVal y + extra') (printJson d' y ++ rest') = some (y, rest') :=
        fun y hy => hl y (List.mem_cons_of_mem x hy)
      rw [show costVal (Json.arr (x :: xs)) + extra
          = (costVal x + (costArrTail xs + extra)) + 1 by rw [costVal_arr_cons]; omega,
        printJson_arr_cons, List.cons_append, List.cons_append, parseVal_succ,
        skipWs_cons_of_not_ws (show isWsChar '[' = false by decide)]
      simp only [List.append_assoc, List.cons_append, List.singleton_append, List.nil_append]
      rw [if_neg (show ¬('[').toNat = 110 by decide),
        if_neg (show ¬('[').toNat = 116 by decide),
        if_neg (show ¬('[').toNat = 102 by decide),
        if_neg (show ¬('[').toNat = 34 by decide),
        if_neg (show ¬('[').toNat = 45 by decide),
        if_neg (show ¬isDigitChar '[' = true by decide),
        if_pos (show ('[').toNat = 91 from rfl),
        skipWs_newline, skipWs_nIndent]
      obtain ⟨c2, t2, he2, hws2, hne93, _, _⟩ := printJson_head (d + 1) x
      rw [he2, List.cons_append, skipWs_cons_of_not_ws hws2]
      simp only []
      rw [if_neg hne93,
        show c2 :: (t2 ++ (printArrTail (d + 1) xs ++ ('\n' :: (nIndent d ++ (']' :: rest)))))
          = (c2 :: t2) ++ (printArrTail (d + 1) xs ++ ('\n' :: (nIndent d ++ (']' :: rest))))
          from rfl,
        ← he2,
        hx (d + 1) _ (costArrTail xs + extra) (noDigitHead_printArrTail (d + 1) xs _)]
      simp only []
      rw [show costVal x + (costArrTail xs + extra) = costArrTail xs + (costVal x + extra)
          by omega,
        parse_print_arrTail xs hxs d rest (costVal x + extra)]
  | hobj l hl =>
    cases l with
    | nil =>
      intro d rest extra _
      rw [show costVal (Json.obj []) + extra = extra + 1 by rw [costVal_obj_nil]; omega,
        printJson_obj_nil, parseVal_succ,
        show ("\x7b\x7d".data ++ rest : List Char) = '\x7b' :: ('\x7d' :: rest) from rfl,
        skipWs_cons_of_not_ws (show isWsChar '\x7b' = false by decide)]
      simp only []
      rw [if_neg (show ¬('\x7b').toNat = 110 by decide),
        if_neg (show ¬('\x7b').toNat = 116 by decide),
        if_neg (show ¬('\x7b').toNat = 102 by decide),
        if_neg (show ¬('\x7b').toNat = 34 by decide),
        if_neg (show ¬('\x7b').toNat = 45 by decide),
        if_neg (show ¬isDigitChar '\x7b' = true by decide),
        if_neg (show ¬('\x7b').toNat = 91 by decide),
        if_pos (show ('\x7b').toNat = 123 from rfl),
        skipWs_cons_of_not_ws (show isWsChar '\x7d' = false by decide)]
      simp only []
      rw [if_pos (show ('\x7d').toNat = 125 from rfl)]
    | cons p ps =>
      intro d rest extra hrest
      obtain ⟨k, v⟩ := p
      have hv := hl (k, v) (List.mem_cons_self (k, v) ps)
      have hps : ∀ q ∈ ps, ∀ (d' : Nat) (rest' : List Char) (extra' : Nat),
          noDigitHead rest' = true →
          parseVal (costVal q.2 + extra') (printJson d' q.2 ++ rest') = some (q.2, rest') :=
        fun q hq => hl q (List.mem_cons_of_mem (k, v) hq)
      rw [show costVal (Json.obj ((k, v) :: ps)) + extra
          = (costMember (k, v) + (costObjTail ps + extra)) + 1 by
          rw [costVal_obj_cons]; omega,
        printJson_obj_cons, List.cons_append, List.cons_append, parseVal_succ,
        skipWs_cons_of_not_ws (show isWsChar '\x7b' = false by decide)]
      simp only [List.append_assoc, List.cons_append, List.singleton_append, List.nil_append]
      rw [if_neg (show ¬('\x7b').toNat = 110 by decide),
        if_neg (show ¬('\x7b').toNat = 116 by decide),
        if_neg (show ¬('\x7b').toNat = 102 by decide),
        if_neg (show ¬('\x7b').toNat = 34 by decide),
        if_neg (show ¬('\x7b').toNat = 45 by decide),
        if_neg (show ¬isDigitChar '\x7b' = true by decide),
        if_neg (show ¬('\x7b').toNat = 91 by decide),
        if_pos (show ('\x7b').toNat = 123 from rfl),
        skipWs_newline, skipWs_nIndent, skipWs_printMember]
      rw [show printMember (d + 1) (k, v) = '"' :: (escList k.data
            ++ ('"' :: ':' :: ' ' :: printJson (d + 1) v)) from printMember_eq _ _ _,
        List.cons_append]
      simp only []
      rw [if_neg (show ¬('"').toNat = 125 by decide)]
      simp only [List.append_assoc, List.cons_append]
      rw [show ('"' : Char) :: (escList k.data
            ++ ('"' :: ':' :: ' ' :: (printJson (d + 1) v
              ++ (printObjTail (d + 1) ps ++ ('\n' :: (nIndent d ++ ('\x7d' :: rest)))))))
          = printMember (d + 1) (k, v)
            ++ (printObjTail (d + 1) ps ++ ('\n' :: (nIndent d ++ ('\x7d' :: rest))))
          by rw [printMember_eq]; simp [List.append_assoc],
        parse_print_member k v hv (d + 1) _ (costObjTail ps + extra)
          (noDigitHead_printObjTail (d + 1) ps _)]
      simp only []
      rw [show costMember (k, v) + (costObjTail ps + extra)
          = costObjTail ps + (costMember (k, v) + extra) by omega,
        parse_print_objTail ps hps d rest (costMember (k, v) + extra)]

/-! ### Fuel bound: the parser fuel `length + 1` suffices for printed output -/

theorem printJson_length_pos (d : Nat) (j : Json) : 1 ≤ (printJson d j).length := by
  obtain ⟨c, t, he, _, _, _, _⟩ := printJson_head d j
  rw [he]
  simp

theorem costArrTail_le_length (xs : List Json)
    (h : ∀ x ∈ xs, ∀ d', costVal x ≤ (printJson d' x).length) :
    ∀ d, costArrTail xs ≤ (printArrTail d xs).length + 1 := by
  induction xs with
  | nil => intro d; rw [costArrTail_nil, printArrTail_nil]; simp
  | cons y ys ih =>
    intro d
    have h1 := h y (List.mem_cons_self y ys) d
    have h2 := ih (fun x hx d' => h x (List.mem_cons_of_mem y hx) d') d
    rw [costArrTail_cons, printArrTail_cons]
    simp only [List.length_cons, List.length_append]
    omega

theorem costMember_le_length (k : String) (v : Json)
    (h : ∀ d', costVal v ≤ (printJson d' v).length) :
    ∀ d, costMember (k, v) ≤ (printMember d (k, v)).length := by
  intro d
  have h1 := h d
  rw [costMember_eq, printMember_eq]
  simp only [List.length_cons, List.length_append]
  omega

theorem costObjTail_le_length (qs : List (String × Json))
    (h : ∀ q ∈ qs, ∀ d', costVal q.2 ≤ (printJson d' q.2).length) :
    ∀ d, costObjTail qs ≤ (printObjTail d qs).length + 1 := by
  induction qs with
  | nil => intro d; rw [costObjTail_nil, printObjTail_nil]; simp
  | cons q qs' ih =>
    intro d
    obtain ⟨k, v⟩ := q
    have h1 := costMember_le_length k v (h (k, v) (List.mem_cons_self _ _)) d
    have h2 := ih (fun x hx d' => h x (List.mem_cons_of_mem (k, v) hx) d') d
    rw [costObjTail_cons, printObjTail_cons]
    simp only [List.length_cons, List.length_append]
    omega

theorem costVal_le_length (j : Json) : ∀ d, costVal j ≤ (printJson d j).length := by
  induction j using Json.recAux with
  | hnull => intro d; rw [costVal_null]; exact printJson_length_pos d _
  | hbool b => intro d; rw [costVal_bool]; exact printJson_length_pos d _
  | hnum n => intro d; rw [costVal_num]; exact printJson_length_pos d _
  | hstr s => intro d; rw [costVal_str]; exact printJson_length_pos d _
  | harr l hl =>
    cases l with
    | nil => intro d; rw [costVal_arr_nil]; exact printJson_length_pos d _
    | cons x xs =>
      intro d
      have h1 := hl x (List.mem_cons_self x xs) (d + 1)
      have h2 := costArrTail_le_length xs
        (fun y hy => hl y (List.mem_cons_of_mem x hy)) (d + 1)
      rw [costVal_arr_cons, printJson_arr_cons]
      simp only [List.length_cons, List.length_append]
      omega
  | hobj l hl =>
    cases l with
    | nil => intro d; rw [costVal_obj_nil]; exact printJson_length_pos d _
    | cons p ps =>
      intro d
      obtain ⟨k, v⟩ := p
      have h1 := costMember_le_length k v (hl (k, v) (List.mem_cons_self _ _)) (d + 1)
      have h2 := costObjTail_le_length ps
        (fun q hq => hl q (List.mem_cons_of_mem (k, v) hq)) (d + 1)
      rw [costVal_obj_cons, printJson_obj_cons]
      simp only [List.length_cons, List.length_append]
      omega

/-- `from_str` inverts `to_string_pretty` on whole documents. -/
theorem parseJsonTop_print (j : Json) : parseJsonTop (to_string_pretty j) = some j := by
  unfold parseJsonTop to_string_pretty
  have hd : (String.mk (printJson 0 j)).data = printJson 0 j := rfl
  have hlen : (String.mk (printJson 0 j)).length = (printJson 0 j).length := rfl
  rw [hd, hlen]
  have hc := costVal_le_length j 0
  rw [show (printJson 0 j).length + 1
      = costVal j + ((printJson 0 j).length + 1 - costVal j) by omega]
  have h3 := parse_printJson j 0 [] ((printJson 0 j).length + 1 - costVal j) rfl
  rw [List.append_nil] at h3
  rw [h3]
  rfl

/-- C7: for every document `D`, `save_config D` followed by `get_config`
returns a document equal to `D` — serializing with `to_string_pretty` and
re-parsing the on-disk file is the identity. -/
theorem save_get_roundtrip (config : Json) (fs : FS) :
    get_config ((save_config config fs).2)
      = (Except.ok config, (save_config config fs).2) := by
  unfold save_config get_config
  simp [parseJsonTop_print]
